import Mathlib

/-!
Verification of the dark-particle detection pipeline (`src/main.py`).

The pipeline operates on a rectangular processing region.  We embed the
region as a grid of pixels indexed by `Fin h × Fin w` (row, column).  The
8-bit grayscale channel is a grid of naturals; the background-luminance
field produced by the Gaussian blur is a grid over a linear ordered field
`α` (instantiated at `ℚ` for executable reasoning and at `ℝ` for the
actual pipeline, whose blur weights are real exponentials).

External library calls are embedded by their documented semantics:
`scipy.ndimage.label` via 4-connectivity reachability (its default
structuring element), `scipy.ndimage.gaussian_filter` via the separable
correlation with normalized `exp (-i^2 / (2σ^2))` weights, kernel radius
`int(4σ + 0.5)` and `reflect` boundary handling, and `sklearn` DBSCAN /
matplotlib colormaps as opaque parameters (no claim constrains their
output).  The Python float literal `1e-5` is modeled as `1/100000`; the
difference to its binary64 value is irrelevant to every statement below.
-/

set_option maxHeartbeats 1000000

namespace DotImageDeal

/-- A `h × w` pixel grid, row index first (matching the numpy arrays). -/
abbrev Grid (h w : ℕ) (X : Type) : Type := Fin h → Fin w → X

/-- An RGB color triple. -/
abbrev Color : Type := ℕ × ℕ × ℕ

variable {h w : ℕ} {α : Type} [LinearOrderedField α]

/-- `0.5 + sensitivity * 0.5`, the threshold factor of `main.py` lines 60/63. -/
def thresholdFactor (s : α) : α := 1 / 2 + s * (1 / 2)

/-- Initial particle mask (`main.py` lines 60-70): a pixel is selected when its
gray value is below `background * thresholdFactor sensitivity_max` and at least
`background * thresholdFactor sensitivity_min`. -/
def initialMask (gray : Grid h w ℕ) (B : Grid h w α) (smin smax : α) : Grid h w Bool :=
  fun y x =>
    decide ((gray y x : α) < B y x * thresholdFactor smax) &&
    decide (B y x * thresholdFactor smin ≤ (gray y x : α))

/-- 4-connectivity adjacency of pixels (the default structuring element of
`scipy.ndimage.label` connects only axis-adjacent pixels). -/
def adjacent (p q : Fin h × Fin w) : Prop :=
  (p.1 = q.1 ∧ (p.2.val + 1 = q.2.val ∨ q.2.val + 1 = p.2.val)) ∨
  (p.2 = q.2 ∧ (p.1.val + 1 = q.1.val ∨ q.1.val + 1 = p.1.val))

instance : DecidableRel (@adjacent h w) := fun p q => by
  unfold adjacent; infer_instance

/-- One dilation step: add every mask-true pixel adjacent to the current set. -/
def dilate (mask : Grid h w Bool) (s : Finset (Fin h × Fin w)) : Finset (Fin h × Fin w) :=
  s ∪ Finset.univ.filter fun q => mask q.1 q.2 = true ∧ ∃ p ∈ s, adjacent p q

/-- The connected component (4-connectivity) of `p` in `mask`, obtained by
saturating the dilation; `h * w` steps always reach the fixpoint.  Empty when
`p` is not a mask pixel (label 0 / background in `scipy.ndimage.label`). -/
def compSet (mask : Grid h w Bool) (p : Fin h × Fin w) : Finset (Fin h × Fin w) :=
  if mask p.1 p.2 = true then (dilate mask)^[h * w] {p} else ∅

/-- The size test of `main.py` lines 82-87: a component of `n` pixels is kept
unless `min_particle_size > 0` rejects `n < min` or a configured
`max_particle_size` rejects `n > max`. -/
def sizeOk (minSize : ℕ) (maxSize : Option ℕ) (n : ℕ) : Bool :=
  decide (minSize ≤ n) &&
    match maxSize with
    | none => true
    | some m => decide (n ≤ m)

/-- Size filtering (`main.py` lines 74-97): active exactly when
`min_particle_size > 0 or max_particle_size is not None`; a pixel survives when
it is masked and its component's pixel count passes `sizeOk`. -/
def sizeFilteredMask (mask : Grid h w Bool) (minSize : ℕ) (maxSize : Option ℕ) :
    Grid h w Bool :=
  if 0 < minSize ∨ maxSize.isSome then
    fun y x => mask y x && sizeOk minSize maxSize (compSet mask (y, x)).card
  else mask

/-- The set of connected components of a mask (the distinct labels of
`scipy.ndimage.label`). -/
def componentsOf (mask : Grid h w Bool) : Finset (Finset (Fin h × Fin w)) :=
  (Finset.univ.filter fun p : Fin h × Fin w => mask p.1 p.2 = true).image (compSet mask)

/-- The components passing the size test. -/
def countedComponents (mask : Grid h w Bool) (minSize : ℕ) (maxSize : Option ℕ) :
    Finset (Finset (Fin h × Fin w)) :=
  (componentsOf mask).filter fun c => sizeOk minSize maxSize c.card = true

/-- The particle count returned by the flat and gradient functions
(`main.py` lines 90 and 101): the surviving-label count when filtering is
active, the raw component count otherwise. -/
def countParticles (mask : Grid h w Bool) (minSize : ℕ) (maxSize : Option ℕ) : ℕ :=
  if 0 < minSize ∨ maxSize.isSome then (countedComponents mask minSize maxSize).card
  else (componentsOf mask).card

/-- A pixel within `b` pixels of an edge of the processing region: the rows
`[:b]` and `[-b:]` and the columns `[:b]` and `[:, -b:]` of `main.py`
lines 104-108 (truncated ℕ subtraction matches Python's clamped negative
slices when `b` exceeds a dimension). -/
def inBorder (b : ℕ) (p : Fin h × Fin w) : Prop :=
  p.1.val < b ∨ h - b ≤ p.1.val ∨ p.2.val < b ∨ w - b ≤ p.2.val

instance : ∀ b (p : Fin h × Fin w), Decidable (inBorder b p) := fun b p => by
  unfold inBorder; infer_instance

/-- Border clearing (`main.py` lines 104-108), applied only when
`border_width > 0`. -/
def clearBorder (b : ℕ) (mask : Grid h w Bool) : Grid h w Bool :=
  if 0 < b then fun y x => mask y x && !(decide (inBorder b (y, x))) else mask

/-- Number of `True` pixels of a mask. -/
def maskCount (mask : Grid h w Bool) : ℕ :=
  (Finset.univ.filter fun p : Fin h × Fin w => mask p.1 p.2 = true).card

/-- `main.py` lines 128-130: `percentage = area / total * 100` with a
division-by-zero guard. -/
def areaPercentage (mask : Grid h w Bool) : ℚ :=
  if 0 < h * w then ((maskCount mask : ℚ) / ((h : ℚ) * (w : ℚ))) * 100 else 0

/-- The observable result of the flat/gradient pipelines: annotated region
pixels, area percentage, particle count. -/
structure MarkResult (h w : ℕ) where
  out : Grid h w Color
  pct : ℚ
  count : ℕ
  deriving DecidableEq

/-- Core of `mark_dark_particles_adaptive` after validation and loading,
parameterized by the background-luminance field `B`. -/
def adaptiveCore (img : Grid h w Color) (gray : Grid h w ℕ) (B : Grid h w α)
    (smin smax : α) (border minSize : ℕ) (maxSize : Option ℕ) : MarkResult h w :=
  let m0 := initialMask gray B smin smax
  let m2 := clearBorder border (sizeFilteredMask m0 minSize maxSize)
  { out := fun y x => if m2 y x = true then (255, 0, 0) else img y x
    pct := areaPercentage m2
    count := countParticles m0 minSize maxSize }

/-- `np.clip(intensity, 0.0, 1.0)`. -/
def clamp01 (x : α) : α := min (max x 0) 1

/-- The gradient red channel (`main.py` lines 243-253): darkness intensity
relative to the threshold band, with the `1e-5` guard against a degenerate
band, then `(100 + intensity * 155).astype(np.uint8)` (truncation; the value
is nonnegative, so truncation is the floor). -/
def gradientRed [FloorRing α] (g : ℕ) (lo hi : α) : ℕ :=
  let denom := hi - lo
  let denom' := if denom < 1 / 100000 then (1 / 100000 : α) else denom
  (⌊(100 : α) + clamp01 ((hi - (g : α)) / denom') * 155⌋).toNat

/-- Core of `mark_dark_particles_gradient` after validation and loading. -/
def gradientCore [FloorRing α] (img : Grid h w Color) (gray : Grid h w ℕ)
    (B : Grid h w α) (smin smax : α) (border minSize : ℕ) (maxSize : Option ℕ) :
    MarkResult h w :=
  let m0 := initialMask gray B smin smax
  let m2 := clearBorder border (sizeFilteredMask m0 minSize maxSize)
  { out := fun y x =>
      if m2 y x = true then
        (gradientRed (gray y x) (B y x * thresholdFactor smin)
          (B y x * thresholdFactor smax), 0, 0)
      else img y x
    pct := areaPercentage m2
    count := countParticles m0 minSize maxSize }

/-- The clustered pipeline returns a 3-tuple on the zero-particle path
(`main.py` line 376) and a 4-tuple with a cluster count otherwise
(line 454); the two constructors mirror the two tuple shapes. -/
inductive ClusteredOutcome (h w : ℕ) where
  | degenerate (img : Grid h w Color) (pct : ℚ) (count : ℕ)
  | normal (out : Grid h w Color) (pct : ℚ) (count : ℕ) (clusterCount : ℕ)
  deriving DecidableEq

/-- Core of `mark_particles_with_clustering` after validation and loading.
The DBSCAN clustering and the colormap only determine per-particle colors and
the cluster count; both are opaque parameters here. -/
def clusteredCore (img : Grid h w Color) (gray : Grid h w ℕ) (B : Grid h w α)
    (smin smax : α) (border minSize : ℕ) (maxSize : Option ℕ)
    (clusterColor : Fin h × Fin w → Color) (nClusters : ℕ) : ClusteredOutcome h w :=
  let m0 := initialMask gray B smin smax
  let m2 := clearBorder border (sizeFilteredMask m0 minSize maxSize)
  let survivors := (Finset.univ.filter fun p : Fin h × Fin w => m2 p.1 p.2 = true).image (compSet m0)
  if survivors.card = 0 then .degenerate img 0 0
  else
    .normal (fun y x => if m2 y x = true then clusterColor (y, x) else img y x)
      (areaPercentage m2) survivors.card nClusters

/-- The two error kinds of the entry points: `ValueError` for sensitivities
outside `[0, 1]` and `TypeError` for an input that is neither a path nor an
image. -/
inductive MarkError where
  | invalidParameter
  | invalidImage
  deriving DecidableEq

/-- Sensitivity validation and auto-swap (`main.py` lines 25-28). -/
def validateSwap (a b : α) : Except MarkError (α × α) :=
  if 0 ≤ a ∧ a ≤ 1 ∧ 0 ≤ b ∧ b ≤ 1 then
    if b < a then .ok (b, a) else .ok (a, b)
  else .error .invalidParameter

/-- Unnormalized Gaussian kernel weight `exp (-i^2 / (2σ^2))`, as produced by
`scipy.ndimage._filters._gaussian_kernel1d` (order 0) before normalization. -/
noncomputable def gaussWeight (σ : ℝ) (i : ℤ) : ℝ := Real.exp (-((i : ℝ) ^ 2) / (2 * σ ^ 2))

/-- Kernel radius `int(truncate * sigma + 0.5)` with the default
`truncate = 4.0`; for positive `σ` Python's `int` truncation is the floor. -/
noncomputable def kernelRadius (σ : ℝ) : ℤ := ⌊4 * σ + 1 / 2⌋

/-- Index folding of scipy's default `reflect` boundary mode
(`(d c b a | a b c d | d c b a)`). -/
def reflectIdx (n : ℕ) (i : ℤ) : ℕ :=
  if i % (2 * (n : ℤ)) < (n : ℤ) then (i % (2 * (n : ℤ))).toNat
  else (2 * (n : ℤ) - 1 - i % (2 * (n : ℤ))).toNat

theorem reflectIdx_lt {n : ℕ} (hn : 0 < n) (i : ℤ) : reflectIdx n i < n := by
  unfold reflectIdx
  have h2n : (0 : ℤ) < 2 * (n : ℤ) := by positivity
  have h0 : 0 ≤ i % (2 * (n : ℤ)) := Int.emod_nonneg i (by omega)
  have h1 : i % (2 * (n : ℤ)) < 2 * (n : ℤ) := Int.emod_lt_of_pos i h2n
  by_cases hc : i % (2 * (n : ℤ)) < (n : ℤ)
  · simp only [hc, if_true]
    omega
  · simp only [hc, if_false]
    omega

/-- A `reflect`-folded index, as an element of `Fin n`. -/
def reflectFin {n : ℕ} (hn : 0 < n) (i : ℤ) : Fin n := ⟨reflectIdx n i, reflectIdx_lt hn i⟩

/-- One pass of `scipy.ndimage.gaussian_filter1d`: correlation with the
normalized Gaussian kernel under `reflect` boundary handling, in floating
point (modeled exactly over `ℝ`). -/
noncomputable def blur1D (σ : ℝ) {n : ℕ} (v : Fin n → ℝ) : Fin n → ℝ := fun j =>
  (∑ i ∈ Finset.Icc (-(kernelRadius σ)) (kernelRadius σ),
      gaussWeight σ i * v (reflectFin j.pos ((j.val : ℤ) + i))) /
  (∑ i ∈ Finset.Icc (-(kernelRadius σ)) (kernelRadius σ), gaussWeight σ i)

/-- `scipy.ndimage.gaussian_filter` with scalar `sigma`: one 1-D pass along
each axis. -/
noncomputable def gaussianBlur (σ : ℝ) (g : Grid h w ℝ) : Grid h w ℝ :=
  let rows : Grid h w ℝ := fun y x => blur1D σ (fun y' => g y' x) y
  fun y x => blur1D σ (fun x' => rows y x') x

/-- The background-luminance field of a grayscale grid
(`main.py` line 56: `gaussian_filter(gray_array.astype(float), sigma=blur_radius)`). -/
noncomputable def backgroundLuminance (σ : ℝ) (gray : Grid h w ℕ) : Grid h w ℝ :=
  gaussianBlur σ fun y x => (gray y x : ℝ)

/-- The `image_input` argument: either a decoded image (with its derived
grayscale channel, computed externally by PIL) or an argument that is neither
a path nor an image (`TypeError`, `main.py` line 36). -/
inductive ImageInput (h w : ℕ) where
  | image (img : Grid h w Color) (gray : Grid h w ℕ)
  | invalid

/-- `mark_dark_particles_adaptive`: validation and swap, then input
dispatch, then the adaptive core over the Gaussian background field. -/
noncomputable def markDarkParticlesAdaptive (input : ImageInput h w) (smin smax σ : ℝ)
    (border minSize : ℕ) (maxSize : Option ℕ) : Except MarkError (MarkResult h w) :=
  match validateSwap smin smax with
  | .error e => .error e
  | .ok (lo, hi) =>
    match input with
    | .invalid => .error .invalidImage
    | .image img gray =>
      .ok (adaptiveCore img gray (backgroundLuminance σ gray) lo hi border minSize maxSize)

/-- `mark_dark_particles_gradient`. -/
noncomputable def markDarkParticlesGradient (input : ImageInput h w) (smin smax σ : ℝ)
    (border minSize : ℕ) (maxSize : Option ℕ) : Except MarkError (MarkResult h w) :=
  match validateSwap smin smax with
  | .error e => .error e
  | .ok (lo, hi) =>
    match input with
    | .invalid => .error .invalidImage
    | .image img gray =>
      .ok (gradientCore img gray (backgroundLuminance σ gray) lo hi border minSize maxSize)

/-- `mark_particles_with_clustering`; the DBSCAN/colormap outputs are opaque
parameters. -/
noncomputable def markParticlesWithClustering (input : ImageInput h w) (smin smax σ : ℝ)
    (border minSize : ℕ) (maxSize : Option ℕ)
    (clusterColor : Fin h × Fin w → Color) (nClusters : ℕ) :
    Except MarkError (ClusteredOutcome h w) :=
  match validateSwap smin smax with
  | .error e => .error e
  | .ok (lo, hi) =>
    match input with
    | .invalid => .error .invalidImage
    | .image img gray =>
      .ok (clusteredCore img gray (backgroundLuminance σ gray) lo hi border minSize maxSize
        clusterColor nClusters)

/-- Percentage of an adaptive/gradient call, `0` on error (used only to state
concrete evaluations). -/
def pctOf : Except MarkError (MarkResult h w) → ℚ
  | .ok r => r.pct
  | .error _ => 0

/-- Output grid of a gradient call, black on error (used only to state
concrete evaluations). -/
def outOf : Except MarkError (MarkResult h w) → Grid h w Color
  | .ok r => r.out
  | .error _ => fun _ _ => (0, 0, 0)

/-! ### Connected components: the dilation fixpoint computes 4-connectivity
reachability, the semantics of `scipy.ndimage.label`. -/

/-- One step inside a mask: move to an adjacent mask-true pixel. -/
def maskStep (mask : Grid h w Bool) (p q : Fin h × Fin w) : Prop :=
  adjacent p q ∧ mask q.1 q.2 = true

/-- Two pixels belong to the same connected component (4-connectivity) of a
mask: the first is mask-true and the second is reachable from it through
axis-adjacent mask-true pixels. -/
def sameComponent (mask : Grid h w Bool) (p q : Fin h × Fin w) : Prop :=
  mask p.1 p.2 = true ∧ Relation.ReflTransGen (maskStep mask) p q

theorem subset_dilate (mask : Grid h w Bool) (s : Finset (Fin h × Fin w)) :
    s ⊆ dilate mask s :=
  Finset.subset_union_left

theorem dilate_mono_mask {mask mask' : Grid h w Bool}
    (hm : ∀ y x, mask y x = true → mask' y x = true)
    {s t : Finset (Fin h × Fin w)} (hst : s ⊆ t) :
    dilate mask s ⊆ dilate mask' t := by
  intro q hq
  rcases Finset.mem_union.1 hq with hq | hq
  · exact Finset.mem_union_left _ (hst hq)
  · refine Finset.mem_union_right _ ?_
    simp only [Finset.mem_filter, Finset.mem_univ, true_and] at hq ⊢
    obtain ⟨hmq, p, hp, hadj⟩ := hq
    exact ⟨hm _ _ hmq, p, hst hp, hadj⟩

theorem dilate_mono {mask : Grid h w Bool} {s t : Finset (Fin h × Fin w)}
    (hst : s ⊆ t) : dilate mask s ⊆ dilate mask t :=
  dilate_mono_mask (fun _ _ hx => hx) hst

theorem iterate_dilate_mono_mask {mask mask' : Grid h w Bool}
    (hm : ∀ y x, mask y x = true → mask' y x = true)
    {s t : Finset (Fin h × Fin w)} (hst : s ⊆ t) (k : ℕ) :
    (dilate mask)^[k] s ⊆ (dilate mask')^[k] t := by
  induction k with
  | zero => exact hst
  | succ k ih =>
    rw [Function.iterate_succ_apply', Function.iterate_succ_apply']
    exact dilate_mono_mask hm ih

theorem subset_iterate_dilate (mask : Grid h w Bool) (s : Finset (Fin h × Fin w)) (k : ℕ) :
    s ⊆ (dilate mask)^[k] s := by
  induction k with
  | zero => exact subset_rfl
  | succ k ih =>
    rw [Function.iterate_succ_apply']
    exact ih.trans (subset_dilate _ _)

theorem iterate_dilate_stable {mask : Grid h w Bool} {s : Finset (Fin h × Fin w)} {k : ℕ}
    (hfix : dilate mask ((dilate mask)^[k] s) = (dilate mask)^[k] s) :
    ∀ m, k ≤ m → (dilate mask)^[m] s = (dilate mask)^[k] s := by
  intro m hkm
  induction m with
  | zero =>
    obtain rfl : k = 0 := Nat.le_zero.1 hkm
    rfl
  | succ m ih =>
    rcases Nat.lt_or_ge k (m + 1) with hlt | hge
    · have hkm' : k ≤ m := Nat.lt_succ_iff.1 hlt
      rw [Function.iterate_succ_apply', ih hkm', hfix]
    · obtain rfl : k = m + 1 := le_antisymm hkm hge
      rfl

theorem card_le_of_no_fix (mask : Grid h w Bool) (p : Fin h × Fin w) (k : ℕ)
    (hne : ∀ j < k, (dilate mask)^[j + 1] {p} ≠ (dilate mask)^[j] {p}) :
    k + 1 ≤ ((dilate mask)^[k] {p}).card := by
  induction k with
  | zero => simp
  | succ k ih =>
    have hsub : (dilate mask)^[k] {p} ⊆ (dilate mask)^[k + 1] {p} := by
      rw [Function.iterate_succ_apply']
      exact subset_dilate _ _
    have hssub : (dilate mask)^[k] {p} ⊂ (dilate mask)^[k + 1] {p} :=
      lt_of_le_of_ne (Finset.le_iff_subset.2 hsub) (Ne.symm (hne k (Nat.lt_succ_self k)))
    have hcard := Finset.card_lt_card hssub
    have hk := ih fun j hj => hne j (Nat.lt_succ_of_lt hj)
    omega

theorem dilate_iterate_fix (mask : Grid h w Bool) (p : Fin h × Fin w) :
    dilate mask ((dilate mask)^[h * w] {p}) = (dilate mask)^[h * w] {p} := by
  have hcardu : Fintype.card (Fin h × Fin w) = h * w := by
    simp [Fintype.card_prod]
  by_cases hfix : ∃ j < h * w, (dilate mask)^[j + 1] {p} = (dilate mask)^[j] {p}
  · obtain ⟨j, hj, hfixj⟩ := hfix
    have hfixj' : dilate mask ((dilate mask)^[j] {p}) = (dilate mask)^[j] {p} :=
      (Function.iterate_succ_apply' _ _ _).symm.trans hfixj
    have h1 := iterate_dilate_stable hfixj' (h * w) (Nat.le_of_lt hj)
    calc dilate mask ((dilate mask)^[h * w] {p})
        = (dilate mask)^[h * w + 1] {p} := (Function.iterate_succ_apply' _ _ _).symm
      _ = (dilate mask)^[j] {p} := iterate_dilate_stable hfixj' _ (by omega)
      _ = (dilate mask)^[h * w] {p} := h1.symm
  · push_neg at hfix
    have hc := card_le_of_no_fix mask p (h * w) hfix
    have hle : ((dilate mask)^[h * w] {p}).card ≤ h * w := by
      calc ((dilate mask)^[h * w] {p}).card ≤ Finset.univ.card := Finset.card_le_univ _
        _ = h * w := by rw [Finset.card_univ, hcardu]
    omega

theorem mem_iterate_dilate_reach {mask : Grid h w Bool} {p : Fin h × Fin w} (k : ℕ)
    {q : Fin h × Fin w} (hq : q ∈ (dilate mask)^[k] {p}) :
    Relation.ReflTransGen (maskStep mask) p q := by
  induction k generalizing q with
  | zero =>
    simp only [Function.iterate_zero, id_eq, Finset.mem_singleton] at hq
    exact hq ▸ Relation.ReflTransGen.refl
  | succ k ih =>
    rw [Function.iterate_succ_apply'] at hq
    rcases Finset.mem_union.1 hq with hq | hq
    · exact ih hq
    · simp only [Finset.mem_filter, Finset.mem_univ, true_and] at hq
      obtain ⟨hmq, r, hr, hadj⟩ := hq
      exact Relation.ReflTransGen.tail (ih hr) ⟨hadj, hmq⟩

theorem reach_mem_of_closed {mask : Grid h w Bool} {s : Finset (Fin h × Fin w)}
    (hcl : dilate mask s = s) {p q : Fin h × Fin w} (hp : p ∈ s)
    (hr : Relation.ReflTransGen (maskStep mask) p q) : q ∈ s := by
  induction hr with
  | refl => exact hp
  | tail _ hstep ih =>
    rename_i b c _
    have : c ∈ dilate mask s := by
      refine Finset.mem_union_right _ ?_
      simp only [Finset.mem_filter, Finset.mem_univ, true_and]
      exact ⟨hstep.2, b, ih, hstep.1⟩
    rwa [hcl] at this

/-- `compSet` computes exactly the 4-connectivity component: for a mask pixel
`p`, membership in `compSet mask p` is reachability from `p` through the
mask. -/
theorem mem_compSet_iff {mask : Grid h w Bool} {p : Fin h × Fin w}
    (hp : mask p.1 p.2 = true) (q : Fin h × Fin w) :
    q ∈ compSet mask p ↔ Relation.ReflTransGen (maskStep mask) p q := by
  unfold compSet
  rw [if_pos hp]
  constructor
  · exact fun hq => mem_iterate_dilate_reach _ hq
  · intro hr
    exact reach_mem_of_closed (dilate_iterate_fix mask p)
      (subset_iterate_dilate mask {p} (h * w) (Finset.mem_singleton_self p)) hr

theorem mem_compSet_iff_sameComponent {mask : Grid h w Bool} {p : Fin h × Fin w}
    (hp : mask p.1 p.2 = true) (q : Fin h × Fin w) :
    q ∈ compSet mask p ↔ sameComponent mask p q := by
  rw [mem_compSet_iff hp, sameComponent]
  exact ⟨fun hr => ⟨hp, hr⟩, fun hr => hr.2⟩

/-- The pixel count of a component equals the cardinality of its
reachability class. -/
theorem compSet_card_eq_ncard {mask : Grid h w Bool} {p : Fin h × Fin w}
    (hp : mask p.1 p.2 = true) :
    (compSet mask p).card = Set.ncard {q | sameComponent mask p q} := by
  have hset : {q | sameComponent mask p q} = ↑(compSet mask p) := by
    ext q
    simp [mem_compSet_iff_sameComponent hp, Set.mem_setOf_eq]
  rw [hset, Set.ncard_coe_Finset]

theorem compSet_mono {mask mask' : Grid h w Bool}
    (hm : ∀ y x, mask y x = true → mask' y x = true) (p : Fin h × Fin w) :
    compSet mask p ⊆ compSet mask' p := by
  unfold compSet
  by_cases hp : mask p.1 p.2 = true
  · rw [if_pos hp, if_pos (hm _ _ hp)]
    exact iterate_dilate_mono_mask hm subset_rfl _
  · rw [if_neg hp]
    exact Finset.empty_subset _

/-! ### Pointwise mask ordering and monotonicity of the pipeline stages. -/

/-- `mask` selects no pixel that `mask'` does not. -/
def maskLe (mask mask' : Grid h w Bool) : Prop :=
  ∀ y x, mask y x = true → mask' y x = true

theorem thresholdFactor_mono {s s' : α} (hs : s ≤ s') :
    thresholdFactor s ≤ thresholdFactor (α := α) s' := by
  unfold thresholdFactor; linarith

theorem initialMask_mono_smax {gray : Grid h w ℕ} {B : Grid h w α}
    (hB : ∀ y x, 0 ≤ B y x) (smin : α) {smax smax' : α} (hs : smax ≤ smax') :
    maskLe (initialMask gray B smin smax) (initialMask gray B smin smax') := by
  intro y x hx
  simp only [initialMask, Bool.and_eq_true, decide_eq_true_eq] at hx ⊢
  exact ⟨lt_of_lt_of_le hx.1 (mul_le_mul_of_nonneg_left (thresholdFactor_mono hs) (hB y x)),
    hx.2⟩

theorem sizeOk_none_mono (minSize : ℕ) {n n' : ℕ} (hn : n ≤ n')
    (h : sizeOk minSize none n = true) : sizeOk minSize none n' = true := by
  simp only [sizeOk, Bool.and_eq_true, decide_eq_true_eq] at h ⊢
  exact ⟨le_trans h.1 hn, trivial⟩

theorem sizeFilteredMask_mono_none {mask mask' : Grid h w Bool} (hm : maskLe mask mask')
    (minSize : ℕ) :
    maskLe (sizeFilteredMask mask minSize none) (sizeFilteredMask mask' minSize none) := by
  intro y x
  unfold sizeFilteredMask
  by_cases hact : 0 < minSize ∨ (none : Option ℕ).isSome
  · rw [if_pos hact, if_pos hact]
    simp only [Bool.and_eq_true]
    rintro ⟨h1, h2⟩
    exact ⟨hm y x h1,
      sizeOk_none_mono _ (Finset.card_le_card (compSet_mono hm (y, x))) h2⟩
  · rw [if_neg hact, if_neg hact]
    exact hm y x

theorem clearBorder_mono {mask mask' : Grid h w Bool} (hm : maskLe mask mask') (b : ℕ) :
    maskLe (clearBorder b mask) (clearBorder b mask') := by
  intro y x
  unfold clearBorder
  by_cases hb : 0 < b
  · rw [if_pos hb, if_pos hb]
    simp only [Bool.and_eq_true]
    rintro ⟨h1, h2⟩
    exact ⟨hm y x h1, h2⟩
  · rw [if_neg hb, if_neg hb]
    exact hm y x

theorem maskCount_mono {mask mask' : Grid h w Bool} (hm : maskLe mask mask') :
    maskCount mask ≤ maskCount mask' := by
  apply Finset.card_le_card
  intro p hp
  simp only [Finset.mem_filter, Finset.mem_univ, true_and] at hp ⊢
  exact hm p.1 p.2 hp

theorem maskCount_le (mask : Grid h w Bool) : maskCount mask ≤ h * w := by
  calc maskCount mask ≤ Finset.univ.card := Finset.card_le_univ _
    _ = h * w := by simp [Finset.card_univ, Fintype.card_prod]

theorem areaPercentage_mono {mask mask' : Grid h w Bool} (hm : maskLe mask mask') :
    areaPercentage mask ≤ areaPercentage mask' := by
  unfold areaPercentage
  by_cases hhw : 0 < h * w
  · rw [if_pos hhw, if_pos hhw]
    have hpos : (0 : ℚ) < (h : ℚ) * (w : ℚ) := by exact_mod_cast hhw
    have hc : (maskCount mask : ℚ) ≤ (maskCount mask' : ℚ) := by
      exact_mod_cast maskCount_mono hm
    have hdiv : (maskCount mask : ℚ) / ((h : ℚ) * (w : ℚ)) ≤
        (maskCount mask' : ℚ) / ((h : ℚ) * (w : ℚ)) := by
      exact div_le_div_of_nonneg_right hc hpos.le
    exact mul_le_mul_of_nonneg_right hdiv (by norm_num)
  · rw [if_neg hhw, if_neg hhw]

theorem areaPercentage_nonneg (mask : Grid h w Bool) : 0 ≤ areaPercentage mask := by
  unfold areaPercentage
  by_cases hhw : 0 < h * w
  · rw [if_pos hhw]
    positivity
  · rw [if_neg hhw]

theorem areaPercentage_le_100 (mask : Grid h w Bool) : areaPercentage mask ≤ 100 := by
  unfold areaPercentage
  by_cases hhw : 0 < h * w
  · rw [if_pos hhw]
    have hpos : (0 : ℚ) < (h : ℚ) * (w : ℚ) := by exact_mod_cast hhw
    have hc : (maskCount mask : ℚ) ≤ (h : ℚ) * (w : ℚ) := by
      have := maskCount_le mask
      exact_mod_cast this
    have hdiv : (maskCount mask : ℚ) / ((h : ℚ) * (w : ℚ)) ≤ 1 :=
      (div_le_one hpos).2 hc
    linarith
  · rw [if_neg hhw]; norm_num

/-! ### Evaluating the Gaussian blur at concrete parameters.

For `σ = 0.3` the kernel radius is `int(4·0.3 + 0.5) = 1` and the side weight
is `exp (-1 / (2·0.3²)) = exp (-50/9)`; for `σ = 0.1` the radius is `0` and
the blur is the identity. -/

/-- The side weight of the radius-1 kernel at `σ = 0.3`. -/
noncomputable def wker : ℝ := Real.exp (-(50 / 9))

theorem wker_pos : 0 < wker := Real.exp_pos _

theorem exp_fifty_lt : Real.exp 50 < 306 ^ 9 := by
  have h50 : Real.exp 50 = Real.exp 1 ^ 50 := by
    rw [← Real.exp_nat_mul]; norm_num
  have he : Real.exp 1 < 2.719 := lt_trans Real.exp_one_lt_d9 (by norm_num)
  have h1 : Real.exp 1 ^ 50 < (2.719 : ℝ) ^ 50 :=
    pow_lt_pow_left he (le_of_lt (Real.exp_pos 1)) (by norm_num)
  rw [h50]
  refine lt_trans h1 ?_
  norm_num

theorem lt_exp_fifty : ((608 : ℝ) / 3) ^ 9 < Real.exp 50 := by
  have h50 : Real.exp 50 = Real.exp 1 ^ 50 := by
    rw [← Real.exp_nat_mul]; norm_num
  have he : (2.718 : ℝ) < Real.exp 1 := lt_trans (by norm_num) Real.exp_one_gt_d9
  have h1 : (2.718 : ℝ) ^ 50 < Real.exp 1 ^ 50 :=
    pow_lt_pow_left he (by norm_num) (by norm_num)
  rw [h50]
  refine lt_trans ?_ h1
  norm_num

theorem wker_gt : 1 / 306 < wker := by
  have h9 : Real.exp (50 / 9) ^ 9 = Real.exp 50 := by
    rw [← Real.exp_nat_mul]; norm_num
  have hlt : Real.exp (50 / 9) < 306 := by
    have h := exp_fifty_lt
    rw [← h9] at h
    exact lt_of_pow_lt_pow_left 9 (by norm_num) h
  have hinv : (306 : ℝ)⁻¹ < (Real.exp (50 / 9))⁻¹ :=
    inv_lt_inv_of_lt (Real.exp_pos _) hlt
  rw [← Real.exp_neg] at hinv
  unfold wker
  rw [one_div]
  exact hinv

theorem wker_lt : wker < 3 / 608 := by
  have h9 : Real.exp (50 / 9) ^ 9 = Real.exp 50 := by
    rw [← Real.exp_nat_mul]; norm_num
  have hgt : (608 : ℝ) / 3 < Real.exp (50 / 9) := by
    have h := lt_exp_fifty
    rw [← h9] at h
    exact lt_of_pow_lt_pow_left 9 (le_of_lt (Real.exp_pos _)) h
  have hinv : (Real.exp (50 / 9))⁻¹ < ((608 : ℝ) / 3)⁻¹ :=
    inv_lt_inv_of_lt (by norm_num) hgt
  rw [← Real.exp_neg] at hinv
  unfold wker
  have h38 : ((608 : ℝ) / 3)⁻¹ = 3 / 608 := by norm_num
  rwa [h38] at hinv

theorem kernelRadius_three_tenths : kernelRadius (3 / 10) = 1 := by
  unfold kernelRadius
  rw [Int.floor_eq_iff]
  norm_num

theorem kernelRadius_one_tenth : kernelRadius (1 / 10) = 0 := by
  unfold kernelRadius
  rw [Int.floor_eq_iff]
  norm_num

theorem gaussWeight_zero (σ : ℝ) : gaussWeight σ 0 = 1 := by
  unfold gaussWeight
  norm_num

theorem gaussWeight_one_three_tenths : gaussWeight (3 / 10) 1 = wker := by
  unfold gaussWeight wker
  norm_num

theorem gaussWeight_neg_one_three_tenths : gaussWeight (3 / 10) (-1) = wker := by
  unfold gaussWeight wker
  norm_num

theorem sum_Icc_neg_one_one (f : ℤ → ℝ) :
    (∑ i ∈ Finset.Icc (-1 : ℤ) 1, f i) = f (-1) + f 0 + f 1 := by
  have hset : Finset.Icc (-1 : ℤ) 1 = {-1, 0, 1} := by
    ext a
    simp only [Finset.mem_Icc, Finset.mem_insert, Finset.mem_singleton]
    omega
  rw [hset, Finset.sum_insert (by decide), Finset.sum_insert (by decide),
    Finset.sum_singleton]
  ring

/-- For a length-1 axis the blur pass is the identity whenever the kernel is
nonempty (reflection folds every index onto the single entry). -/
theorem blur1D_fin_one (σ : ℝ) (hr : 0 ≤ kernelRadius σ) (v : Fin 1 → ℝ) (j : Fin 1) :
    blur1D σ v j = v j := by
  unfold blur1D
  have h0 : ∀ i : ℤ, reflectFin j.pos ((j.val : ℤ) + i) = j := fun i => Subsingleton.elim _ _
  simp only [h0]
  rw [← Finset.sum_mul]
  have hS : 0 < ∑ i ∈ Finset.Icc (-(kernelRadius σ)) (kernelRadius σ), gaussWeight σ i := by
    apply Finset.sum_pos (fun i _ => Real.exp_pos _)
    exact ⟨0, by simp only [Finset.mem_Icc]; omega⟩
  rw [mul_comm, mul_div_assoc, div_self hS.ne', mul_one]

theorem reflectIdx_of_lt {n : ℕ} {i : ℤ} (h0 : 0 ≤ i) (hi : i < (n : ℤ)) :
    reflectIdx n i = i.toNat := by
  unfold reflectIdx
  have h2 : i % (2 * (n : ℤ)) = i := Int.emod_eq_of_lt h0 (by omega)
  rw [h2, if_pos hi]

theorem reflectFin_self {n : ℕ} (hn : 0 < n) (j : Fin n) :
    reflectFin hn ((j.val : ℤ) + 0) = j := by
  apply Fin.ext
  show reflectIdx n ((j.val : ℤ) + 0) = j.val
  rw [add_zero, reflectIdx_of_lt (Int.natCast_nonneg _) (by exact_mod_cast j.isLt)]
  exact Int.toNat_natCast _

/-- A radius-0 kernel makes the blur pass the identity. -/
theorem blur1D_radius_zero {n : ℕ} (σ : ℝ) (hr : kernelRadius σ = 0) (v : Fin n → ℝ)
    (j : Fin n) : blur1D σ v j = v j := by
  unfold blur1D
  rw [hr]
  simp only [neg_zero, Finset.Icc_self, Finset.sum_singleton, gaussWeight_zero, one_mul]
  rw [div_one, reflectFin_self]

/-- A radius-1 blur pass is the normalized three-point correlation. -/
theorem blur1D_radius_one {n : ℕ} (σ : ℝ) (hr : kernelRadius σ = 1) (v : Fin n → ℝ)
    (j : Fin n) :
    blur1D σ v j =
      (gaussWeight σ (-1) * v (reflectFin j.pos ((j.val : ℤ) + -1)) +
        gaussWeight σ 0 * v (reflectFin j.pos ((j.val : ℤ) + 0)) +
        gaussWeight σ 1 * v (reflectFin j.pos ((j.val : ℤ) + 1))) /
      (gaussWeight σ (-1) + gaussWeight σ 0 + gaussWeight σ 1) := by
  unfold blur1D
  rw [hr, sum_Icc_neg_one_one, sum_Icc_neg_one_one]

/-! ### A concrete 1×5 test image.

Grayscale row `[255, 2, 1, 2, 255]` (realizable as the grayscale channel of
the RGB image with `(v, v, v)` pixels).  At `σ = 0.3` the background field is
`B(x) = (w·left + center + w·right) / (1 + 2w)` with `w = exp (-50/9)`. -/

/-- Grayscale channel of the test image. -/
def cexGray : Grid 1 5 ℕ := fun _ => ![255, 2, 1, 2, 255]

/-- RGB channels of the test image. -/
def cexImg : Grid 1 5 Color := fun y x => (cexGray y x, cexGray y x, cexGray y x)

/-- The initial mask at `sensitivity_max = 0.8`: two isolated pixels. -/
def cexMaskNarrow : Grid 1 5 Bool := fun _ => ![false, true, false, true, false]

/-- The initial mask at `sensitivity_max = 1`: one 3-pixel component. -/
def cexMaskWide : Grid 1 5 Bool := fun _ => ![false, true, true, true, false]

theorem backgroundLuminance_row (σ : ℝ) (hr : 0 ≤ kernelRadius σ) (gray : Grid 1 5 ℕ)
    (x : Fin 5) :
    backgroundLuminance σ gray 0 x = blur1D σ (fun x' => (gray 0 x' : ℝ)) x := by
  unfold backgroundLuminance gaussianBlur
  congr 1
  funext x'
  exact blur1D_fin_one σ hr _ 0

theorem cexB_eval (x : Fin 5) :
    backgroundLuminance (3 / 10) cexGray 0 x =
      (wker * (cexGray 0 (reflectFin x.pos ((x.val : ℤ) + -1)) : ℝ) +
        (cexGray 0 (reflectFin x.pos ((x.val : ℤ) + 0)) : ℝ) +
        wker * (cexGray 0 (reflectFin x.pos ((x.val : ℤ) + 1)) : ℝ)) /
      (wker + 1 + wker) := by
  rw [backgroundLuminance_row (3 / 10) (by rw [kernelRadius_three_tenths]; norm_num) cexGray x,
    blur1D_radius_one (3 / 10) kernelRadius_three_tenths]
  rw [gaussWeight_neg_one_three_tenths, gaussWeight_zero, gaussWeight_one_three_tenths,
    one_mul]

theorem cexB0 : backgroundLuminance (3 / 10) cexGray 0 0 =
    (wker * 255 + 255 + wker * 2) / (wker + 1 + wker) := by
  rw [cexB_eval 0]
  have hl : reflectFin (Fin.pos (0 : Fin 5)) (((0 : Fin 5).val : ℤ) + -1) = (0 : Fin 5) := by
    apply Fin.ext; decide
  have hc : reflectFin (Fin.pos (0 : Fin 5)) (((0 : Fin 5).val : ℤ) + 0) = (0 : Fin 5) := by
    apply Fin.ext; decide
  have hr : reflectFin (Fin.pos (0 : Fin 5)) (((0 : Fin 5).val : ℤ) + 1) = (1 : Fin 5) := by
    apply Fin.ext; decide
  rw [hl, hc, hr]
  norm_num [cexGray]

theorem cexB1 : backgroundLuminance (3 / 10) cexGray 0 1 =
    (wker * 255 + 2 + wker * 1) / (wker + 1 + wker) := by
  rw [cexB_eval 1]
  have hl : reflectFin (Fin.pos (1 : Fin 5)) (((1 : Fin 5).val : ℤ) + -1) = (0 : Fin 5) := by
    apply Fin.ext; decide
  have hc : reflectFin (Fin.pos (1 : Fin 5)) (((1 : Fin 5).val : ℤ) + 0) = (1 : Fin 5) := by
    apply Fin.ext; decide
  have hr : reflectFin (Fin.pos (1 : Fin 5)) (((1 : Fin 5).val : ℤ) + 1) = (2 : Fin 5) := by
    apply Fin.ext; decide
  rw [hl, hc, hr]
  norm_num [cexGray]

theorem cexB2 : backgroundLuminance (3 / 10) cexGray 0 2 =
    (wker * 2 + 1 + wker * 2) / (wker + 1 + wker) := by
  rw [cexB_eval 2]
  have hl : reflectFin (Fin.pos (2 : Fin 5)) (((2 : Fin 5).val : ℤ) + -1) = (1 : Fin 5) := by
    apply Fin.ext; decide
  have hc : reflectFin (Fin.pos (2 : Fin 5)) (((2 : Fin 5).val : ℤ) + 0) = (2 : Fin 5) := by
    apply Fin.ext; decide
  have hr : reflectFin (Fin.pos (2 : Fin 5)) (((2 : Fin 5).val : ℤ) + 1) = (3 : Fin 5) := by
    apply Fin.ext; decide
  rw [hl, hc, hr]
  norm_num [cexGray]

theorem cexB3 : backgroundLuminance (3 / 10) cexGray 0 3 =
    (wker * 1 + 2 + wker * 255) / (wker + 1 + wker) := by
  rw [cexB_eval 3]
  have hl : reflectFin (Fin.pos (3 : Fin 5)) (((3 : Fin 5).val : ℤ) + -1) = (2 : Fin 5) := by
    apply Fin.ext; decide
  have hc : reflectFin (Fin.pos (3 : Fin 5)) (((3 : Fin 5).val : ℤ) + 0) = (3 : Fin 5) := by
    apply Fin.ext; decide
  have hr : reflectFin (Fin.pos (3 : Fin 5)) (((3 : Fin 5).val : ℤ) + 1) = (4 : Fin 5) := by
    apply Fin.ext; decide
  rw [hl, hc, hr]
  norm_num [cexGray]

theorem cexB4 : backgroundLuminance (3 / 10) cexGray 0 4 =
    (wker * 2 + 255 + wker * 255) / (wker + 1 + wker) := by
  rw [cexB_eval 4]
  have hl : reflectFin (Fin.pos (4 : Fin 5)) (((4 : Fin 5).val : ℤ) + -1) = (3 : Fin 5) := by
    apply Fin.ext; decide
  have hc : reflectFin (Fin.pos (4 : Fin 5)) (((4 : Fin 5).val : ℤ) + 0) = (4 : Fin 5) := by
    apply Fin.ext; decide
  have hr : reflectFin (Fin.pos (4 : Fin 5)) (((4 : Fin 5).val : ℤ) + 1) = (4 : Fin 5) := by
    apply Fin.ext; decide
  rw [hl, hc, hr]
  norm_num [cexGray]

theorem cexN0 : initialMask cexGray (backgroundLuminance (3 / 10) cexGray) 0 (4 / 5) 0 0 = false := by
  have hw2 := wker_lt
  have hw0 := wker_pos
  have hD : (0 : ℝ) < wker + 1 + wker := by nlinarith
  simp only [initialMask, cexB0, thresholdFactor, show cexGray 0 0 = 255 from rfl]
  apply Bool.and_eq_false_iff.mpr
  left
  rw [decide_eq_false_iff_not, not_lt, div_mul_eq_mul_div, div_le_iff hD]
  push_cast
  nlinarith

theorem cexN1 : initialMask cexGray (backgroundLuminance (3 / 10) cexGray) 0 (4 / 5) 0 1 = true := by
  have hw1 := wker_gt
  have hw2 := wker_lt
  have hw0 := wker_pos
  have hD : (0 : ℝ) < wker + 1 + wker := by nlinarith
  simp only [initialMask, cexB1, thresholdFactor, show cexGray 0 1 = 2 from rfl]
  rw [Bool.and_eq_true, decide_eq_true_eq, decide_eq_true_eq]
  refine ⟨?_, ?_⟩
  · rw [div_mul_eq_mul_div, lt_div_iff hD]
    push_cast
    nlinarith
  · rw [div_mul_eq_mul_div, div_le_iff hD]
    push_cast
    nlinarith

theorem cexN2 : initialMask cexGray (backgroundLuminance (3 / 10) cexGray) 0 (4 / 5) 0 2 = false := by
  have hw2 := wker_lt
  have hw0 := wker_pos
  have hD : (0 : ℝ) < wker + 1 + wker := by nlinarith
  simp only [initialMask, cexB2, thresholdFactor, show cexGray 0 2 = 1 from rfl]
  apply Bool.and_eq_false_iff.mpr
  left
  rw [decide_eq_false_iff_not, not_lt, div_mul_eq_mul_div, div_le_iff hD]
  push_cast
  nlinarith

theorem cexN3 : initialMask cexGray (backgroundLuminance (3 / 10) cexGray) 0 (4 / 5) 0 3 = true := by
  have hw1 := wker_gt
  have hw2 := wker_lt
  have hw0 := wker_pos
  have hD : (0 : ℝ) < wker + 1 + wker := by nlinarith
  simp only [initialMask, cexB3, thresholdFactor, show cexGray 0 3 = 2 from rfl]
  rw [Bool.and_eq_true, decide_eq_true_eq, decide_eq_true_eq]
  refine ⟨?_, ?_⟩
  · rw [div_mul_eq_mul_div, lt_div_iff hD]
    push_cast
    nlinarith
  · rw [div_mul_eq_mul_div, div_le_iff hD]
    push_cast
    nlinarith

theorem cexN4 : initialMask cexGray (backgroundLuminance (3 / 10) cexGray) 0 (4 / 5) 0 4 = false := by
  have hw2 := wker_lt
  have hw0 := wker_pos
  have hD : (0 : ℝ) < wker + 1 + wker := by nlinarith
  simp only [initialMask, cexB4, thresholdFactor, show cexGray 0 4 = 255 from rfl]
  apply Bool.and_eq_false_iff.mpr
  left
  rw [decide_eq_false_iff_not, not_lt, div_mul_eq_mul_div, div_le_iff hD]
  push_cast
  nlinarith

theorem cexW0 : initialMask cexGray (backgroundLuminance (3 / 10) cexGray) 0 1 0 0 = false := by
  have hw0 := wker_pos
  have hD : (0 : ℝ) < wker + 1 + wker := by nlinarith
  simp only [initialMask, cexB0, thresholdFactor, show cexGray 0 0 = 255 from rfl]
  apply Bool.and_eq_false_iff.mpr
  left
  rw [decide_eq_false_iff_not, not_lt, div_mul_eq_mul_div, div_le_iff hD]
  push_cast
  nlinarith

theorem cexW1 : initialMask cexGray (backgroundLuminance (3 / 10) cexGray) 0 1 0 1 = true := by
  have hw2 := wker_lt
  have hw0 := wker_pos
  have hD : (0 : ℝ) < wker + 1 + wker := by nlinarith
  simp only [initialMask, cexB1, thresholdFactor, show cexGray 0 1 = 2 from rfl]
  rw [Bool.and_eq_true, decide_eq_true_eq, decide_eq_true_eq]
  refine ⟨?_, ?_⟩
  · rw [div_mul_eq_mul_div, lt_div_iff hD]
    push_cast
    nlinarith
  · rw [div_mul_eq_mul_div, div_le_iff hD]
    push_cast
    nlinarith

theorem cexW2 : initialMask cexGray (backgroundLuminance (3 / 10) cexGray) 0 1 0 2 = true := by
  have hw0 := wker_pos
  have hD : (0 : ℝ) < wker + 1 + wker := by nlinarith
  simp only [initialMask, cexB2, thresholdFactor, show cexGray 0 2 = 1 from rfl]
  rw [Bool.and_eq_true, decide_eq_true_eq, decide_eq_true_eq]
  refine ⟨?_, ?_⟩
  · rw [div_mul_eq_mul_div, lt_div_iff hD]
    push_cast
    nlinarith
  · rw [div_mul_eq_mul_div, div_le_iff hD]
    push_cast
    nlinarith

theorem cexW3 : initialMask cexGray (backgroundLuminance (3 / 10) cexGray) 0 1 0 3 = true := by
  have hw2 := wker_lt
  have hw0 := wker_pos
  have hD : (0 : ℝ) < wker + 1 + wker := by nlinarith
  simp only [initialMask, cexB3, thresholdFactor, show cexGray 0 3 = 2 from rfl]
  rw [Bool.and_eq_true, decide_eq_true_eq, decide_eq_true_eq]
  refine ⟨?_, ?_⟩
  · rw [div_mul_eq_mul_div, lt_div_iff hD]
    push_cast
    nlinarith
  · rw [div_mul_eq_mul_div, div_le_iff hD]
    push_cast
    nlinarith

theorem cexW4 : initialMask cexGray (backgroundLuminance (3 / 10) cexGray) 0 1 0 4 = false := by
  have hw0 := wker_pos
  have hD : (0 : ℝ) < wker + 1 + wker := by nlinarith
  simp only [initialMask, cexB4, thresholdFactor, show cexGray 0 4 = 255 from rfl]
  apply Bool.and_eq_false_iff.mpr
  left
  rw [decide_eq_false_iff_not, not_lt, div_mul_eq_mul_div, div_le_iff hD]
  push_cast
  nlinarith

theorem cexMaskNarrow_eq :
    initialMask cexGray (backgroundLuminance (3 / 10) cexGray) 0 (4 / 5) = cexMaskNarrow := by
  funext y x
  fin_cases y
  fin_cases x
  · exact cexN0
  · exact cexN1
  · exact cexN2
  · exact cexN3
  · exact cexN4

theorem cexMaskWide_eq :
    initialMask cexGray (backgroundLuminance (3 / 10) cexGray) 0 1 = cexMaskWide := by
  funext y x
  fin_cases y
  fin_cases x
  · exact cexW0
  · exact cexW1
  · exact cexW2
  · exact cexW3
  · exact cexW4

/-! ### Evaluating the pipeline on the test image. -/

theorem clearBorder_zero (mask : Grid h w Bool) : clearBorder 0 mask = mask := by
  unfold clearBorder
  rw [if_neg]
  omega

theorem adaptiveCore_pct (img : Grid h w Color) (gray : Grid h w ℕ) (B : Grid h w α)
    (smin smax : α) (border minSize : ℕ) (maxSize : Option ℕ) :
    (adaptiveCore img gray B smin smax border minSize maxSize).pct =
      areaPercentage
        (clearBorder border (sizeFilteredMask (initialMask gray B smin smax) minSize maxSize)) :=
  rfl

theorem adaptiveCore_count (img : Grid h w Color) (gray : Grid h w ℕ) (B : Grid h w α)
    (smin smax : α) (border minSize : ℕ) (maxSize : Option ℕ) :
    (adaptiveCore img gray B smin smax border minSize maxSize).count =
      countParticles (initialMask gray B smin smax) minSize maxSize :=
  rfl

theorem validateSwap_narrow : validateSwap (0 : ℝ) (4 / 5) = .ok (0, 4 / 5) := by
  unfold validateSwap
  rw [if_pos (by norm_num), if_neg (by norm_num)]

theorem validateSwap_wide : validateSwap (0 : ℝ) 1 = .ok (0, 1) := by
  unfold validateSwap
  rw [if_pos (by norm_num), if_neg (by norm_num)]

theorem cex_adaptive_narrow :
    markDarkParticlesAdaptive (ImageInput.image cexImg cexGray) 0 (4 / 5) (3 / 10) 0 0
        (some 1) =
      .ok (adaptiveCore cexImg cexGray (backgroundLuminance (3 / 10) cexGray) 0 (4 / 5) 0 0
        (some 1)) := by
  unfold markDarkParticlesAdaptive
  rw [validateSwap_narrow]

theorem cex_adaptive_wide :
    markDarkParticlesAdaptive (ImageInput.image cexImg cexGray) 0 1 (3 / 10) 0 0 (some 1) =
      .ok (adaptiveCore cexImg cexGray (backgroundLuminance (3 / 10) cexGray) 0 1 0 0
        (some 1)) := by
  unfold markDarkParticlesAdaptive
  rw [validateSwap_wide]

theorem cex_pct_narrow :
    pctOf (markDarkParticlesAdaptive (ImageInput.image cexImg cexGray) 0 (4 / 5) (3 / 10) 0 0
      (some 1)) = 40 := by
  rw [cex_adaptive_narrow]
  show (adaptiveCore cexImg cexGray (backgroundLuminance (3 / 10) cexGray) 0 (4 / 5) 0 0
    (some 1)).pct = 40
  rw [adaptiveCore_pct, cexMaskNarrow_eq, clearBorder_zero]
  have hfilter : sizeFilteredMask cexMaskNarrow 0 (some 1) = cexMaskNarrow := by decide
  rw [hfilter]
  have hc : maskCount cexMaskNarrow = 2 := by decide
  unfold areaPercentage
  rw [if_pos (by norm_num), hc]
  norm_num

theorem cex_pct_wide :
    pctOf (markDarkParticlesAdaptive (ImageInput.image cexImg cexGray) 0 1 (3 / 10) 0 0
      (some 1)) = 0 := by
  rw [cex_adaptive_wide]
  show (adaptiveCore cexImg cexGray (backgroundLuminance (3 / 10) cexGray) 0 1 0 0
    (some 1)).pct = 0
  rw [adaptiveCore_pct, cexMaskWide_eq, clearBorder_zero]
  have hfilter : sizeFilteredMask cexMaskWide 0 (some 1) = fun _ _ => false := by decide
  rw [hfilter]
  have hc : maskCount (fun _ _ => false : Grid 1 5 Bool) = 0 := by decide
  unfold areaPercentage
  rw [if_pos (by norm_num), hc]
  norm_num

theorem sizeFilteredMask_inactive (mask : Grid h w Bool) :
    sizeFilteredMask mask 0 none = mask := by
  unfold sizeFilteredMask
  rw [if_neg]
  simp

theorem gradientCore_out [FloorRing α] (img : Grid h w Color) (gray : Grid h w ℕ)
    (B : Grid h w α) (smin smax : α) (border minSize : ℕ) (maxSize : Option ℕ) :
    (gradientCore img gray B smin smax border minSize maxSize).out = fun y x =>
      if clearBorder border (sizeFilteredMask (initialMask gray B smin smax) minSize maxSize)
          y x = true then
        (gradientRed (gray y x) (B y x * thresholdFactor smin) (B y x * thresholdFactor smax),
          0, 0)
      else img y x :=
  rfl

theorem cex_gradientRed :
    gradientRed 1 (backgroundLuminance (3 / 10) cexGray 0 2 * thresholdFactor 0)
      (backgroundLuminance (3 / 10) cexGray 0 2 * thresholdFactor 1) = 102 := by
  have hw1 := wker_gt
  have hw2 := wker_lt
  have hw0 := wker_pos
  rw [cexB2]
  set N : ℝ := wker * 2 + 1 + wker * 2 with hN
  set D : ℝ := wker + 1 + wker with hD
  have hDpos : (0 : ℝ) < D := by rw [hD]; nlinarith
  have hNpos : (0 : ℝ) < N := by rw [hN]; nlinarith
  have htf0 : thresholdFactor (0 : ℝ) = 1 / 2 := by unfold thresholdFactor; norm_num
  have htf1 : thresholdFactor (1 : ℝ) = 1 := by unfold thresholdFactor; norm_num
  rw [htf0, htf1, mul_one]
  have h4w : (0 : ℝ) < 4 * wker + 1 := by nlinarith
  have hq1 : (1 : ℝ) < N / D := by rw [lt_div_iff hDpos]; rw [hN, hD]; nlinarith
  have hdenom : N / D - N / D * (1 / 2) = N / D * (1 / 2) := by ring
  have hdenom_big : ¬(N / D - N / D * (1 / 2) < 1 / 100000) := by
    rw [hdenom, not_lt]
    nlinarith [hq1]
  have hint : (N / D - 1) / (N / D * (1 / 2)) = 4 * wker / (4 * wker + 1) := by
    rw [hN, hD]
    rw [div_eq_div_iff (by rw [← hN, ← hD]; positivity) (by positivity)]
    field_simp
    ring
  have hle1 : 4 * wker / (4 * wker + 1) ≤ 1 := by
    rw [div_le_one h4w]
    linarith
  have hclamp : clamp01 ((N / D - 1) / (N / D * (1 / 2))) = 4 * wker / (4 * wker + 1) := by
    rw [hint]
    unfold clamp01
    rw [max_eq_left (by positivity), min_eq_left hle1]
  have hs1 : (2 : ℝ) ≤ 4 * wker / (4 * wker + 1) * 155 := by
    rw [div_mul_eq_mul_div, le_div_iff h4w]
    nlinarith
  have hs2 : 4 * wker / (4 * wker + 1) * 155 < 3 := by
    rw [div_mul_eq_mul_div, div_lt_iff h4w]
    nlinarith
  have hfloor : ⌊(100 : ℝ) + 4 * wker / (4 * wker + 1) * 155⌋ = 102 := by
    rw [Int.floor_eq_iff]
    constructor
    · push_cast
      linarith
    · push_cast
      linarith
  simp only [gradientRed]
  rw [if_neg hdenom_big, Nat.cast_one, hdenom, hclamp, hfloor]
  rfl

theorem cex_gradient_eval :
    markDarkParticlesGradient (ImageInput.image cexImg cexGray) 0 1 (3 / 10) 0 0 none =
      .ok (gradientCore cexImg cexGray (backgroundLuminance (3 / 10) cexGray) 0 1 0 0
        none) := by
  unfold markDarkParticlesGradient
  rw [validateSwap_wide]

theorem cex_gradient_out :
    outOf (markDarkParticlesGradient (ImageInput.image cexImg cexGray) 0 1 (3 / 10) 0 0 none)
      0 2 = (102, 0, 0) := by
  rw [cex_gradient_eval]
  show (gradientCore cexImg cexGray (backgroundLuminance (3 / 10) cexGray) 0 1 0 0 none).out
    0 2 = (102, 0, 0)
  rw [gradientCore_out]
  simp only [sizeFilteredMask_inactive, clearBorder_zero, cexW2, if_pos]
  rw [show cexGray 0 2 = 1 from rfl, cex_gradientRed]

theorem cex_formula_gt :
    (102 : ℝ) <
      100 + clamp01 ((backgroundLuminance (3 / 10) cexGray 0 2 * thresholdFactor 1 - 1) /
        max (backgroundLuminance (3 / 10) cexGray 0 2 * thresholdFactor 1 -
            backgroundLuminance (3 / 10) cexGray 0 2 * thresholdFactor 0) (1 / 100000)) *
        155 := by
  have hw1 := wker_gt
  have hw2 := wker_lt
  have hw0 := wker_pos
  rw [cexB2]
  set N : ℝ := wker * 2 + 1 + wker * 2 with hN
  set D : ℝ := wker + 1 + wker with hD
  have hDpos : (0 : ℝ) < D := by rw [hD]; nlinarith
  have htf0 : thresholdFactor (0 : ℝ) = 1 / 2 := by unfold thresholdFactor; norm_num
  have htf1 : thresholdFactor (1 : ℝ) = 1 := by unfold thresholdFactor; norm_num
  rw [htf0, htf1, mul_one]
  have h4w : (0 : ℝ) < 4 * wker + 1 := by nlinarith
  have hq1 : (1 : ℝ) < N / D := by rw [lt_div_iff hDpos]; rw [hN, hD]; nlinarith
  have hdenom : N / D - N / D * (1 / 2) = N / D * (1 / 2) := by ring
  have hmax : max (N / D - N / D * (1 / 2)) (1 / 100000 : ℝ) = N / D * (1 / 2) := by
    rw [hdenom]
    apply max_eq_left
    nlinarith [hq1]
  have hint : (N / D - 1) / (N / D * (1 / 2)) = 4 * wker / (4 * wker + 1) := by
    rw [hN, hD]
    rw [div_eq_div_iff (by rw [← hN, ← hD]; positivity) (by positivity)]
    field_simp
    ring
  have hle1 : 4 * wker / (4 * wker + 1) ≤ 1 := by
    rw [div_le_one h4w]
    linarith
  have hclamp : clamp01 ((N / D - 1) / (N / D * (1 / 2))) = 4 * wker / (4 * wker + 1) := by
    rw [hint]
    unfold clamp01
    rw [max_eq_left (by positivity), min_eq_left hle1]
  have hs1 : (2 : ℝ) < 4 * wker / (4 * wker + 1) * 155 := by
    rw [div_mul_eq_mul_div, lt_div_iff h4w]
    nlinarith
  rw [hmax, hclamp]
  linarith

/-! ### Identity blur at `σ = 0.1` and the degenerate clustered path. -/

theorem backgroundLuminance_identity (gray : Grid h w ℕ) :
    backgroundLuminance (1 / 10) gray = fun y x => (gray y x : ℝ) := by
  funext y x
  unfold backgroundLuminance gaussianBlur
  rw [blur1D_radius_zero _ kernelRadius_one_tenth]
  exact blur1D_radius_zero _ kernelRadius_one_tenth _ _

theorem initialMask_identity_empty (gray : Grid h w ℕ) :
    initialMask gray (fun y x => (gray y x : ℝ)) 0 1 = fun _ _ => false := by
  funext y x
  simp only [initialMask]
  apply Bool.and_eq_false_iff.mpr
  left
  rw [decide_eq_false_iff_not, not_lt]
  have htf1 : thresholdFactor (1 : ℝ) = 1 := by unfold thresholdFactor; norm_num
  rw [htf1, mul_one]

theorem clearBorder_of_false {mask : Grid h w Bool} (hmask : ∀ y x, mask y x = false)
    (b : ℕ) : ∀ y x, clearBorder b mask y x = false := by
  intro y x
  unfold clearBorder
  by_cases hb : 0 < b
  · rw [if_pos hb, hmask y x]
    rfl
  · rw [if_neg hb]
    exact hmask y x

theorem clusteredCore_degenerate (img : Grid h w Color) (gray : Grid h w ℕ)
    (B : Grid h w α) (smin smax : α) (border minSize : ℕ) (maxSize : Option ℕ)
    (clusterColor : Fin h × Fin w → Color) (nClusters : ℕ)
    (hm : ∀ y x,
      clearBorder border (sizeFilteredMask (initialMask gray B smin smax) minSize maxSize)
        y x = false) :
    clusteredCore img gray B smin smax border minSize maxSize clusterColor nClusters =
      .degenerate img 0 0 := by
  have hcard : ((Finset.univ.filter fun p : Fin h × Fin w =>
      clearBorder border (sizeFilteredMask (initialMask gray B smin smax) minSize maxSize)
        p.1 p.2 = true).image (compSet (initialMask gray B smin smax))).card = 0 := by
    rw [Finset.card_eq_zero, Finset.image_eq_empty, Finset.filter_eq_empty_iff]
    intro p _
    rw [hm p.1 p.2]
    simp
  simp only [clusteredCore]
  rw [if_pos hcard]

/-- The grayscale channel of a 1×1 test image. -/
def cexGray1 : Grid 1 1 ℕ := fun _ _ => 7

/-- The RGB channels of the 1×1 test image. -/
def cexImg1 : Grid 1 1 Color := fun _ _ => (7, 7, 7)

theorem cex_clustered_eval :
    markParticlesWithClustering (ImageInput.image cexImg1 cexGray1) 0 1 (1 / 10) 10 0 none
        (fun _ => (128, 128, 128)) 0 =
      .ok (ClusteredOutcome.degenerate cexImg1 0 0) := by
  unfold markParticlesWithClustering
  rw [validateSwap_wide]
  show Except.ok (clusteredCore cexImg1 cexGray1 (backgroundLuminance (1 / 10) cexGray1) 0 1
    10 0 none (fun _ => (128, 128, 128)) 0) = _
  rw [clusteredCore_degenerate]
  intro y x
  apply clearBorder_of_false
  intro y' x'
  rw [sizeFilteredMask_inactive, backgroundLuminance_identity,
    initialMask_identity_empty]

/-! ### Remaining helper lemmas for the claim theorems. -/

theorem clearBorder_false_of_inBorder {b : ℕ} (hb : 0 < b) {p : Fin h × Fin w}
    (hp : inBorder b p) (mask : Grid h w Bool) : clearBorder b mask p.1 p.2 = false := by
  unfold clearBorder
  rw [if_pos hb]
  have : decide (inBorder b (p.1, p.2)) = true := decide_eq_true hp
  rw [this]
  exact Bool.and_false _

theorem adaptiveCore_out (img : Grid h w Color) (gray : Grid h w ℕ) (B : Grid h w α)
    (smin smax : α) (border minSize : ℕ) (maxSize : Option ℕ) :
    (adaptiveCore img gray B smin smax border minSize maxSize).out = fun y x =>
      if clearBorder border (sizeFilteredMask (initialMask gray B smin smax) minSize maxSize)
          y x = true then (255, 0, 0)
      else img y x :=
  rfl

theorem gradientCore_pct [FloorRing α] (img : Grid h w Color) (gray : Grid h w ℕ)
    (B : Grid h w α) (smin smax : α) (border minSize : ℕ) (maxSize : Option ℕ) :
    (gradientCore img gray B smin smax border minSize maxSize).pct =
      areaPercentage
        (clearBorder border (sizeFilteredMask (initialMask gray B smin smax) minSize maxSize)) :=
  rfl

theorem gradientCore_count [FloorRing α] (img : Grid h w Color) (gray : Grid h w ℕ)
    (B : Grid h w α) (smin smax : α) (border minSize : ℕ) (maxSize : Option ℕ) :
    (gradientCore img gray B smin smax border minSize maxSize).count =
      countParticles (initialMask gray B smin smax) minSize maxSize :=
  rfl

theorem sizeOk_iff (minSize : ℕ) (maxSize : Option ℕ) (n : ℕ) :
    sizeOk minSize maxSize n = true ↔
      minSize ≤ n ∧ ∀ M, maxSize = some M → n ≤ M := by
  cases maxSize with
  | none => simp [sizeOk]
  | some M =>
    simp only [sizeOk, Bool.and_eq_true, decide_eq_true_eq, Option.some.injEq]
    constructor
    · rintro ⟨h1, h2⟩
      exact ⟨h1, fun M' hM' => hM' ▸ h2⟩
    · rintro ⟨h1, h2⟩
      exact ⟨h1, h2 M rfl⟩

theorem countParticles_eq_counted (mask : Grid h w Bool) (minSize : ℕ)
    (maxSize : Option ℕ) :
    countParticles mask minSize maxSize = (countedComponents mask minSize maxSize).card := by
  unfold countParticles
  by_cases hact : 0 < minSize ∨ maxSize.isSome
  · rw [if_pos hact]
  · rw [if_neg hact]
    push_neg at hact
    obtain ⟨h1, h2⟩ := hact
    obtain rfl : minSize = 0 := by omega
    obtain rfl : maxSize = none := Option.not_isSome_iff_eq_none.1 h2
    unfold countedComponents
    rw [Finset.filter_true_of_mem]
    intro c _
    simp [sizeOk]

theorem validateSwap_comm (a b : α) : validateSwap a b = validateSwap b a := by
  unfold validateSwap
  by_cases hr : 0 ≤ a ∧ a ≤ 1 ∧ 0 ≤ b ∧ b ≤ 1
  · have hr' : 0 ≤ b ∧ b ≤ 1 ∧ 0 ≤ a ∧ a ≤ 1 := by tauto
    rw [if_pos hr, if_pos hr']
    rcases lt_trichotomy a b with hab | hab | hab
    · rw [if_neg (not_lt.2 hab.le), if_pos hab]
    · subst hab
      rw [if_neg (lt_irrefl a)]
    · rw [if_pos hab, if_neg (not_lt.2 hab.le)]
  · have hr' : ¬(0 ≤ b ∧ b ≤ 1 ∧ 0 ≤ a ∧ a ≤ 1) := by tauto
    rw [if_neg hr, if_neg hr']

/-- The `if denom < ε then ε else denom` guard of the source equals the
`max(denom, ε)` phrasing of the spec. -/
theorem if_lt_eps_eq_max (d e : α) : (if d < e then e else d) = max d e := by
  rcases le_or_lt e d with hed | hed
  · rw [if_neg (not_lt.2 hed), max_eq_left hed]
  · rw [if_pos hed, max_eq_right hed.le]

theorem gradientRed_range [FloorRing α] (g : ℕ) (lo hi : α) :
    100 ≤ gradientRed g lo hi ∧ gradientRed g lo hi ≤ 255 := by
  simp only [gradientRed, clamp01]
  set i : α := min (max ((hi - (g : α)) /
    (if hi - lo < 1 / 100000 then (1 / 100000 : α) else hi - lo)) 0) 1 with hi_def
  have h0 : 0 ≤ i := le_min (le_max_right _ _) zero_le_one
  have h1 : i ≤ 1 := min_le_right _ _
  have hlow : (100 : ℤ) ≤ ⌊(100 : α) + i * 155⌋ := by
    apply Int.le_floor.2
    push_cast
    nlinarith
  have hhigh : ⌊(100 : α) + i * 155⌋ ≤ 255 := by
    have hle : (100 : α) + i * 155 ≤ 255 := by nlinarith
    calc ⌊(100 : α) + i * 155⌋ ≤ ⌊(255 : α)⌋ := Int.floor_le_floor hle
      _ = 255 := by
        rw [show (255 : α) = ((255 : ℤ) : α) by push_cast; ring, Int.floor_intCast]
  constructor
  · omega
  · omega

/-! ### The claims. -/

/-- C1: for every valid invocation (positive blur radius, ordered in-range
sensitivities) and every pixel of the processing region, the initial particle
mask holds exactly when
`B(x,y)·(0.5 + 0.5·sensitivity_min) ≤ gray(x,y) < B(x,y)·(0.5 + 0.5·sensitivity_max)`,
where `B` is the Gaussian blur (standard deviation `blur_radius`, real-valued,
no clamping or rounding) of the 8-bit grayscale channel. -/
theorem claim1_initial_mask_band (gray : Grid h w ℕ) (σ smin smax : ℝ) (hσ : 0 < σ)
    (h0 : 0 ≤ smin) (h1 : smin ≤ smax) (h2 : smax ≤ 1) (y : Fin h) (x : Fin w) :
    initialMask gray (backgroundLuminance σ gray) smin smax y x = true ↔
      (backgroundLuminance σ gray y x * (0.5 + 0.5 * smin) ≤ (gray y x : ℝ) ∧
        (gray y x : ℝ) < backgroundLuminance σ gray y x * (0.5 + 0.5 * smax)) := by
  simp only [initialMask, Bool.and_eq_true, decide_eq_true_eq, thresholdFactor]
  constructor
  · rintro ⟨ha, hb⟩
    constructor
    · nlinarith [hb]
    · nlinarith [ha]
  · rintro ⟨ha, hb⟩
    constructor
    · nlinarith [hb]
    · nlinarith [ha]

/-- Witness for C1 at `σ = 1`, sensitivities `(0, 1)`, on the 1×1 image. -/
theorem claim1_initial_mask_band_witness :
    initialMask cexGray1 (backgroundLuminance 1 cexGray1) 0 1 0 0 = true ↔
      (backgroundLuminance 1 cexGray1 0 0 * (0.5 + 0.5 * 0) ≤ (cexGray1 0 0 : ℝ) ∧
        (cexGray1 0 0 : ℝ) < backgroundLuminance 1 cexGray1 0 0 * (0.5 + 0.5 * 1)) :=
  claim1_initial_mask_band cexGray1 1 0 1 zero_lt_one (le_refl 0) zero_le_one (le_refl 1) 0 0

/-- C2: for both the flat and the gradient pipeline, the returned
`area_percentage` is `100 · (true pixels) / (total pixels)` of the final mask,
with the division-by-zero guard returning `0` on an empty region, and it
always lies within `[0, 100]`. -/
theorem claim2_area_percentage [FloorRing α] (img : Grid h w Color) (gray : Grid h w ℕ)
    (B : Grid h w α) (smin smax : α) (border minSize : ℕ) (maxSize : Option ℕ) :
    ((adaptiveCore img gray B smin smax border minSize maxSize).pct =
      if 0 < h * w then
        (maskCount (clearBorder border
            (sizeFilteredMask (initialMask gray B smin smax) minSize maxSize)) : ℚ) /
          ((h : ℚ) * (w : ℚ)) * 100
      else 0) ∧
    0 ≤ (adaptiveCore img gray B smin smax border minSize maxSize).pct ∧
    (adaptiveCore img gray B smin smax border minSize maxSize).pct ≤ 100 ∧
    ((gradientCore img gray B smin smax border minSize maxSize).pct =
      (adaptiveCore img gray B smin smax border minSize maxSize).pct) ∧
    0 ≤ (gradientCore img gray B smin smax border minSize maxSize).pct ∧
    (gradientCore img gray B smin smax border minSize maxSize).pct ≤ 100 := by
  rw [adaptiveCore_pct, gradientCore_pct]
  refine ⟨rfl, areaPercentage_nonneg _, areaPercentage_le_100 _, rfl,
    areaPercentage_nonneg _, areaPercentage_le_100 _⟩

/-- C3 counterexample: on the 1×5 image `[255, 2, 1, 2, 255]` with
`sensitivity_min = 0`, `blur_radius = 0.3`, `border_width = 0`,
`min_particle_size = 0`, `max_particle_size = 1`, raising `sensitivity_max`
from `0.8` to `1` merges the two surviving 1-pixel particles through the
middle pixel into a single 3-pixel component, which the size filter then
removes: the returned `area_percentage` drops from `40` to `0`.  This refutes
the claim that increasing `sensitivity_max` never decreases
`area_percentage` when `max_particle_size` is fixed but set. -/
theorem claim3_counterexample :
    ((4 : ℝ) / 5 < 1) ∧
    pctOf (markDarkParticlesAdaptive (ImageInput.image cexImg cexGray) 0 (4 / 5) (3 / 10) 0 0
      (some 1)) = 40 ∧
    pctOf (markDarkParticlesAdaptive (ImageInput.image cexImg cexGray) 0 1 (3 / 10) 0 0
      (some 1)) = 0 ∧
    pctOf (markDarkParticlesAdaptive (ImageInput.image cexImg cexGray) 0 1 (3 / 10) 0 0
        (some 1)) <
      pctOf (markDarkParticlesAdaptive (ImageInput.image cexImg cexGray) 0 (4 / 5) (3 / 10) 0
        0 (some 1)) := by
  refine ⟨by norm_num, cex_pct_narrow, cex_pct_wide, ?_⟩
  rw [cex_pct_narrow, cex_pct_wide]
  norm_num

/-- C3 amended: with no upper size bound (`max_particle_size = None`),
increasing `sensitivity_max` over a nonnegative background field never
decreases the returned `area_percentage`; with a set `max_particle_size` the
monotonicity fails (see the counterexample). -/
theorem claim3_amended (img : Grid h w Color) (gray : Grid h w ℕ) (B : Grid h w α)
    (smin : α) (hB : ∀ y x, 0 ≤ B y x) {smax smax' : α} (hs : smax ≤ smax')
    (border minSize : ℕ) :
    (adaptiveCore img gray B smin smax border minSize none).pct ≤
      (adaptiveCore img gray B smin smax' border minSize none).pct := by
  rw [adaptiveCore_pct, adaptiveCore_pct]
  exact areaPercentage_mono
    (clearBorder_mono (sizeFilteredMask_mono_none (initialMask_mono_smax hB smin hs) minSize)
      border)

/-- Witness for the amended C3 on a 1×1 region with zero background field and
`sensitivity_max` raised from `0` to `1`. -/
theorem claim3_amended_witness :
    (adaptiveCore cexImg1 cexGray1 (fun _ _ => (0 : ℚ)) 0 0 0 0 none).pct ≤
      (adaptiveCore cexImg1 cexGray1 (fun _ _ => (0 : ℚ)) 0 1 0 0 none).pct :=
  claim3_amended cexImg1 cexGray1 (fun _ _ => (0 : ℚ)) 0 (fun _ _ => le_refl 0) zero_le_one
    0 0

/-- C4: with `border_width > 0`, a pixel within `border_width` pixels of any
edge of the processing region is cleared from the final mask (so it
contributes nothing to `area_percentage`) and its color in the annotated
region equals the source pixel, in all three modes (flat, gradient,
clustered). -/
theorem claim4_border_invariant [FloorRing α] (img : Grid h w Color) (gray : Grid h w ℕ)
    (B : Grid h w α) (smin smax : α) (border minSize : ℕ) (maxSize : Option ℕ)
    (clusterColor : Fin h × Fin w → Color) (nClusters : ℕ) (hb : 0 < border)
    (y : Fin h) (x : Fin w) (hyx : inBorder border (y, x)) :
    clearBorder border (sizeFilteredMask (initialMask gray B smin smax) minSize maxSize) y x
      = false ∧
    (adaptiveCore img gray B smin smax border minSize maxSize).out y x = img y x ∧
    (gradientCore img gray B smin smax border minSize maxSize).out y x = img y x ∧
    (∀ outg pct cnt ncl,
      clusteredCore img gray B smin smax border minSize maxSize clusterColor nClusters =
        .normal outg pct cnt ncl → outg y x = img y x) := by
  have hfalse :
      clearBorder border (sizeFilteredMask (initialMask gray B smin smax) minSize maxSize) y x
        = false :=
    clearBorder_false_of_inBorder hb hyx _
  refine ⟨hfalse, ?_, ?_, ?_⟩
  · rw [adaptiveCore_out]
    simp [hfalse]
  · rw [gradientCore_out]
    simp [hfalse]
  · intro outg pct cnt ncl hceq
    simp only [clusteredCore] at hceq
    by_cases hcard : ((Finset.univ.filter fun p : Fin h × Fin w =>
        clearBorder border (sizeFilteredMask (initialMask gray B smin smax) minSize maxSize)
          p.1 p.2 = true).image (compSet (initialMask gray B smin smax))).card = 0
    · rw [if_pos hcard] at hceq
      exact ClusteredOutcome.noConfusion hceq
    · rw [if_neg hcard] at hceq
      rw [ClusteredOutcome.normal.injEq] at hceq
      obtain ⟨ho, -, -, -⟩ := hceq
      rw [← ho]
      simp [hfalse]

/-- Witness for C4 on a 1×1 region with `border_width = 1`. -/
theorem claim4_border_invariant_witness :
    clearBorder 1 (sizeFilteredMask
        (initialMask cexGray1 (fun _ _ => (0 : ℚ)) 0 0) 0 none) 0 0 = false ∧
    (adaptiveCore cexImg1 cexGray1 (fun _ _ => (0 : ℚ)) 0 0 1 0 none).out 0 0 =
      cexImg1 0 0 ∧
    (gradientCore cexImg1 cexGray1 (fun _ _ => (0 : ℚ)) 0 0 1 0 none).out 0 0 =
      cexImg1 0 0 ∧
    (∀ outg pct cnt ncl,
      clusteredCore cexImg1 cexGray1 (fun _ _ => (0 : ℚ)) 0 0 1 0 none
          (fun _ => (0, 0, 0)) 0 =
        .normal outg pct cnt ncl → outg 0 0 = cexImg1 0 0) :=
  claim4_border_invariant cexImg1 cexGray1 (fun _ _ => (0 : ℚ)) 0 0 1 0 none
    (fun _ => (0, 0, 0)) 0 Nat.one_pos 0 0 (by decide)

/-- C5: when size filtering is active (`min_particle_size > 0` or
`max_particle_size` set), a pixel survives the filter exactly when it is in
the initial mask and its 4-connectivity component's pixel count is at least
`min_particle_size` (a vacuous condition when that bound is `0`) and at most
any configured `max_particle_size`; in particular every pixel of a component
violating the bounds is cleared. -/
theorem claim5_size_filter (mask : Grid h w Bool) (minSize : ℕ) (maxSize : Option ℕ)
    (hact : 0 < minSize ∨ maxSize.isSome) (y : Fin h) (x : Fin w) :
    sizeFilteredMask mask minSize maxSize y x = true ↔
      (mask y x = true ∧
        (0 < minSize → minSize ≤ Set.ncard {q | sameComponent mask (y, x) q}) ∧
        (∀ M, maxSize = some M → Set.ncard {q | sameComponent mask (y, x) q} ≤ M)) := by
  unfold sizeFilteredMask
  rw [if_pos hact]
  simp only [Bool.and_eq_true]
  constructor
  · rintro ⟨hm, hok⟩
    rw [sizeOk_iff] at hok
    rw [← compSet_card_eq_ncard hm]
    exact ⟨hm, fun _ => hok.1, hok.2⟩
  · rintro ⟨hm, h1, h2⟩
    rw [← compSet_card_eq_ncard hm] at h1 h2
    refine ⟨hm, (sizeOk_iff _ _ _).2 ⟨?_, h2⟩⟩
    rcases Nat.eq_zero_or_pos minSize with h0 | h0
    · omega
    · exact h1 h0

/-- Witness for C5 on the two-particle mask with `min_particle_size = 1`. -/
theorem claim5_size_filter_witness :
    sizeFilteredMask cexMaskNarrow 1 none 0 1 = true ↔
      (cexMaskNarrow 0 1 = true ∧
        (0 < 1 → 1 ≤ Set.ncard {q | sameComponent cexMaskNarrow (0, 1) q}) ∧
        (∀ M, (none : Option ℕ) = some M →
          Set.ncard {q | sameComponent cexMaskNarrow (0, 1) q} ≤ M)) :=
  claim5_size_filter cexMaskNarrow 1 none (Or.inl Nat.one_pos) 0 1

/-- The cluster count carried by a clustered-mode result, if any: the
zero-particle path of `mark_particles_with_clustering` returns the 3-tuple
`(img, 0, 0)`, which carries none. -/
def clusterCountOf : ClusteredOutcome h w → Option ℕ
  | .degenerate _ _ _ => none
  | .normal _ _ _ n => some n

/-- C6 counterexample: a valid clustered-mode invocation (blur radius `0.1`,
whose kernel radius is `0`, makes the mask empty on any image) with zero
surviving particles returns the original image with zero percentage and zero
particle count — but as the 3-tuple `(img, 0, 0)` of `main.py` line 376,
which does not carry the `cluster_count` that the 4-tuple of the normal path
(line 454) carries.  This refutes the claim's final part. -/
theorem claim6_counterexample :
    markParticlesWithClustering (ImageInput.image cexImg1 cexGray1) 0 1 (1 / 10) 10 0 none
        (fun _ => (128, 128, 128)) 0 =
      .ok (ClusteredOutcome.degenerate cexImg1 0 0) ∧
    clusterCountOf (ClusteredOutcome.degenerate cexImg1 (0 : ℚ) 0) = none :=
  ⟨cex_clustered_eval, rfl⟩

/-- C6 amended: in clustered mode, when zero particles survive filtering and
border clearing, the call succeeds and returns the original image unmodified
with zero percentage and zero particle count — as the degenerate 3-tuple,
which carries no `cluster_count`. -/
theorem claim6_amended (img : Grid h w Color) (gray : Grid h w ℕ) (B : Grid h w α)
    (smin smax : α) (border minSize : ℕ) (maxSize : Option ℕ)
    (clusterColor : Fin h × Fin w → Color) (nClusters : ℕ)
    (hm : ∀ y x,
      clearBorder border (sizeFilteredMask (initialMask gray B smin smax) minSize maxSize)
        y x = false) :
    clusteredCore img gray B smin smax border minSize maxSize clusterColor nClusters =
        .degenerate img 0 0 ∧
    clusterCountOf
        (clusteredCore img gray B smin smax border minSize maxSize clusterColor nClusters) =
      none := by
  have hdeg := clusteredCore_degenerate img gray B smin smax border minSize maxSize
    clusterColor nClusters hm
  refine ⟨hdeg, ?_⟩
  rw [hdeg]
  rfl

/-- Witness for the amended C6 on a 1×1 region whose threshold band is
empty. -/
theorem claim6_amended_witness :
    clusteredCore cexImg1 (fun _ _ => 0) (fun _ _ => (0 : ℚ)) 0 0 0 0 none
        (fun _ => (0, 0, 0)) 0 = .degenerate cexImg1 0 0 ∧
    clusterCountOf (clusteredCore cexImg1 (fun _ _ => 0) (fun _ _ => (0 : ℚ)) 0 0 0 0 none
        (fun _ => (0, 0, 0)) 0) = none :=
  claim6_amended cexImg1 (fun _ _ => 0) (fun _ _ => (0 : ℚ)) 0 0 0 0 none
    (fun _ => (0, 0, 0)) 0
    (fun y x => by
      rw [clearBorder_zero, sizeFilteredMask_inactive]
      simp [initialMask])

/-- C7: for every image input and every pair of sensitivities, each of the
three entry points returns exactly the same result when `sensitivity_min` and
`sensitivity_max` are exchanged — the entry validation auto-swaps a reversed
pair, so `(0.8, 0.2)` and `(0.2, 0.8)` are indistinguishable. -/
theorem claim7_swap_symmetric (input : ImageInput h w) (a b σ : ℝ)
    (border minSize : ℕ) (maxSize : Option ℕ) (clusterColor : Fin h × Fin w → Color)
    (nClusters : ℕ) :
    markDarkParticlesAdaptive input a b σ border minSize maxSize =
        markDarkParticlesAdaptive input b a σ border minSize maxSize ∧
    markDarkParticlesGradient input a b σ border minSize maxSize =
        markDarkParticlesGradient input b a σ border minSize maxSize ∧
    markParticlesWithClustering input a b σ border minSize maxSize clusterColor nClusters =
        markParticlesWithClustering input b a σ border minSize maxSize clusterColor
          nClusters := by
  have hv := validateSwap_comm a b
  refine ⟨?_, ?_, ?_⟩
  · unfold markDarkParticlesAdaptive
    rw [hv]
  · unfold markDarkParticlesGradient
    rw [hv]
  · unfold markParticlesWithClustering
    rw [hv]

/-- C8: the adaptive entry point fails with the parameter-validation error
exactly when one of the two sensitivities lies outside `[0, 1]`; the check
precedes image handling, so even an invalid image input yields the parameter
error when the sensitivities are out of range, and an in-range reversed pair
is never rejected. -/
theorem claim8_validation_iff (input : ImageInput h w) (a b σ : ℝ)
    (border minSize : ℕ) (maxSize : Option ℕ) :
    markDarkParticlesAdaptive input a b σ border minSize maxSize =
        .error .invalidParameter ↔
      (a < 0 ∨ 1 < a ∨ b < 0 ∨ 1 < b) := by
  unfold markDarkParticlesAdaptive validateSwap
  by_cases hr : 0 ≤ a ∧ a ≤ 1 ∧ 0 ≤ b ∧ b ≤ 1
  · rw [if_pos hr]
    constructor
    · intro hcontra
      exfalso
      by_cases hba : b < a
      · rw [if_pos hba] at hcontra
        cases input with
        | image img gray => exact Except.noConfusion hcontra
        | invalid =>
          have := Except.error.inj hcontra
          exact MarkError.noConfusion this
      · rw [if_neg hba] at hcontra
        cases input with
        | image img gray => exact Except.noConfusion hcontra
        | invalid =>
          have := Except.error.inj hcontra
          exact MarkError.noConfusion this
    · intro hout
      exfalso
      obtain ⟨h1, h2, h3, h4⟩ := hr
      rcases hout with hx | hx | hx | hx <;> linarith
  · rw [if_neg hr]
    constructor
    · intro _
      by_contra hno
      push_neg at hno
      obtain ⟨h1, h2, h3, h4⟩ := hno
      exact hr ⟨h1, h2, h3, h4⟩
    · intro _
      rfl

/-- C9 counterexample: on the 1×5 test image in gradient mode
(`sensitivity_min = 0`, `sensitivity_max = 1`, `blur_radius = 0.3`, no border,
no size filter), the middle pixel is masked and is stored with red channel
exactly `102` (the `astype(np.uint8)` truncation of `100 + intensity·155`),
while the claim's exact value `100 + intensity·155` differs from `102` (it
exceeds it).  The stored color is therefore not `(100 + intensity·155, 0, 0)`
as claimed. -/
theorem claim9_counterexample :
    outOf (markDarkParticlesGradient (ImageInput.image cexImg cexGray) 0 1 (3 / 10) 0 0 none)
        0 2 = (102, 0, 0) ∧
    (100 : ℝ) + clamp01 ((backgroundLuminance (3 / 10) cexGray 0 2 * thresholdFactor 1 - 1) /
        max (backgroundLuminance (3 / 10) cexGray 0 2 * thresholdFactor 1 -
            backgroundLuminance (3 / 10) cexGray 0 2 * thresholdFactor 0) (1 / 100000)) *
      155 ≠ 102 :=
  ⟨cex_gradient_out, ne_of_gt cex_formula_gt⟩

/-- C9 amended: in gradient mode a pixel of the final mask is stored with
color `(⌊100 + intensity·155⌋, 0, 0)` — the `uint8` truncation of the claimed
value, with `intensity = clamp((high - gray) / max(high - low, 1e-5), 0, 1)` —
so the red channel always lies in `100..255`, and every pixel outside the
final mask keeps its source color. -/
theorem claim9_amended [FloorRing α] (img : Grid h w Color) (gray : Grid h w ℕ)
    (B : Grid h w α) (smin smax : α) (border minSize : ℕ) (maxSize : Option ℕ)
    (y : Fin h) (x : Fin w) :
    ((gradientCore img gray B smin smax border minSize maxSize).out y x =
      if clearBorder border (sizeFilteredMask (initialMask gray B smin smax) minSize maxSize)
          y x = true then
        ((⌊(100 : α) + clamp01 ((B y x * thresholdFactor smax - (gray y x : α)) /
            max (B y x * thresholdFactor smax - B y x * thresholdFactor smin) (1 / 100000)) *
            155⌋).toNat, 0, 0)
      else img y x) ∧
    100 ≤ gradientRed (gray y x) (B y x * thresholdFactor smin) (B y x * thresholdFactor smax) ∧
    gradientRed (gray y x) (B y x * thresholdFactor smin) (B y x * thresholdFactor smax)
      ≤ 255 := by
  refine ⟨?_, (gradientRed_range _ _ _).1, (gradientRed_range _ _ _).2⟩
  rw [gradientCore_out]
  by_cases hm : clearBorder border
      (sizeFilteredMask (initialMask gray B smin smax) minSize maxSize) y x = true
  · simp only [hm, if_true]
    simp only [gradientRed, clamp01, if_lt_eps_eq_max]
  · simp only [hm]
    rw [if_neg (by simp [hm]), if_neg (by simp [hm])]

/-- C10 (implicit): in the flat and gradient pipelines the particle count is
taken from the size-filtered mask before the border is cleared: a surviving
component lying entirely within the border zone is erased from the final mask
and the annotated output (contributing nothing to `area_percentage`), yet the
returned `particle_count` still equals the number of size-passing components
of the pre-border mask — which includes it — in both the filtered and the
unfiltered counting branches. -/
theorem claim10_count_ignores_border [FloorRing α] (img : Grid h w Color)
    (gray : Grid h w ℕ) (B : Grid h w α) (smin smax : α) (border minSize : ℕ)
    (maxSize : Option ℕ) (hb : 0 < border) (C : Finset (Fin h × Fin w))
    (hC : C ∈ countedComponents (initialMask gray B smin smax) minSize maxSize)
    (hCb : ∀ p ∈ C, inBorder border p) :
    (∀ p ∈ C,
      clearBorder border (sizeFilteredMask (initialMask gray B smin smax) minSize maxSize)
          p.1 p.2 = false ∧
      (adaptiveCore img gray B smin smax border minSize maxSize).out p.1 p.2 = img p.1 p.2 ∧
      (gradientCore img gray B smin smax border minSize maxSize).out p.1 p.2 =
        img p.1 p.2) ∧
    (adaptiveCore img gray B smin smax border minSize maxSize).count =
      (countedComponents (initialMask gray B smin smax) minSize maxSize).card ∧
    (gradientCore img gray B smin smax border minSize maxSize).count =
      (countedComponents (initialMask gray B smin smax) minSize maxSize).card ∧
    1 ≤ (adaptiveCore img gray B smin smax border minSize maxSize).count := by
  have hcount : (adaptiveCore img gray B smin smax border minSize maxSize).count =
      (countedComponents (initialMask gray B smin smax) minSize maxSize).card := by
    rw [adaptiveCore_count, countParticles_eq_counted]
  refine ⟨?_, hcount, ?_, ?_⟩
  · intro p hp
    have hfalse := clearBorder_false_of_inBorder hb (hCb p hp)
      (sizeFilteredMask (initialMask gray B smin smax) minSize maxSize)
    refine ⟨hfalse, ?_, ?_⟩
    · rw [adaptiveCore_out]
      simp [hfalse]
    · rw [gradientCore_out]
      simp [hfalse]
  · rw [gradientCore_count, countParticles_eq_counted]
  · rw [hcount]
    exact Finset.card_pos.2 ⟨C, hC⟩

/-- A 1×1 grayscale grid with the single value `1`. -/
def wGray : Grid 1 1 ℕ := fun _ _ => 1

/-- A 1×1 background field with the single value `2`. -/
def wB : Grid 1 1 ℚ := fun _ _ => 2

/-- A 1×1 RGB grid. -/
def wImg : Grid 1 1 Color := fun _ _ => (1, 1, 1)

/-- Witness for C10: a 1×1 region whose single pixel is masked
(`gray = 1`, `B = 2`, band `[1, 2)`) and lies inside the `border_width = 1`
frame — it is erased from the output yet counted. -/
theorem claim10_count_ignores_border_witness :
    (∀ p ∈ ({((0 : Fin 1), (0 : Fin 1))} : Finset (Fin 1 × Fin 1)),
      clearBorder 1 (sizeFilteredMask (initialMask wGray wB 0 1) 0 none) p.1 p.2 = false ∧
      (adaptiveCore wImg wGray wB 0 1 1 0 none).out p.1 p.2 = wImg p.1 p.2 ∧
      (gradientCore wImg wGray wB 0 1 1 0 none).out p.1 p.2 = wImg p.1 p.2) ∧
    (adaptiveCore wImg wGray wB 0 1 1 0 none).count =
      (countedComponents (initialMask wGray wB 0 1) 0 none).card ∧
    (gradientCore wImg wGray wB 0 1 1 0 none).count =
      (countedComponents (initialMask wGray wB 0 1) 0 none).card ∧
    1 ≤ (adaptiveCore wImg wGray wB 0 1 1 0 none).count := by
  have hmask : initialMask wGray wB 0 1 = fun _ _ => true := by
    funext y x
    simp only [initialMask, wGray, wB]
    rw [Bool.and_eq_true, decide_eq_true_eq, decide_eq_true_eq]
    constructor <;> norm_num [thresholdFactor]
  exact claim10_count_ignores_border wImg wGray wB 0 1 1 0 none Nat.one_pos
    {((0 : Fin 1), (0 : Fin 1))} (by rw [hmask]; decide) (by decide)

end DotImageDeal
